import Mathlib

/-
Verification of the Seek job-monitor pipeline (src/main.py) against its
natural-language specification.  The Python program is shallowly embedded:
Python values appearing in the parsed page JSON become the inductive type
PyVal, the job dictionaries built by the scraper become the structure
JobRecord, and each source function is translated into a Lean definition of
the same name.  Operations that can raise in Python are modelled with
Option-valued results where the raise can actually occur.
-/

set_option maxHeartbeats 1000000

namespace SeekBot

/-- Python-style values as found in the parsed embedded JSON of a page:
None, booleans, integers, strings, lists and dictionaries (dictionaries are
modelled as association lists with distinct keys, as produced by a JSON
parser). -/
inductive PyVal where
  | none
  | bool (b : Bool)
  | int (n : Int)
  | str (s : String)
  | list (xs : List PyVal)
  | dict (fields : List (String × PyVal))

/-- Python truthiness of a value: None, False, 0, the empty string, the
empty list and the empty dict are falsy. -/
def truthy : PyVal → Bool
  | .none => false
  | .bool b => b
  | .int n => n != 0
  | .str s => s != ""
  | .list xs => !xs.isEmpty
  | .dict fs => !fs.isEmpty

/-- Python a or b on values: a when truthy, else b. -/
def pyOr (a b : PyVal) : PyVal := if truthy a then a else b

/-- Python dict.get(k, d): the stored value when the key is present
(possibly None), otherwise the default d. -/
def pyGetD (fs : List (String × PyVal)) (k : String) (d : PyVal) : PyVal :=
  match fs.find? (fun kv => kv.1 == k) with
  | some kv => kv.2
  | Option.none => d

/-- Python dict.get(k): default None. -/
def pyGet (fs : List (String × PyVal)) (k : String) : PyVal := pyGetD fs k .none

def sq : Char := Char.ofNat 39

def lbrace : Char := Char.ofNat 123

def rbrace : Char := Char.ofNat 125

mutual
/-- Models CPython repr of a value from our subset.  String escaping is not
modelled: strings are wrapped in single-quote characters verbatim, which
agrees with CPython for strings free of quotes and backslashes. -/
def pyRepr : PyVal → String
  | .none => "None"
  | .bool true => "True"
  | .bool false => "False"
  | .int n => toString n
  | .str s => String.singleton sq ++ s ++ String.singleton sq
  | .list xs => "[" ++ pyReprElems xs ++ "]"
  | .dict fs => String.singleton lbrace ++ pyReprFields fs ++ String.singleton rbrace

/-- Comma-separated reprs of list elements. -/
def pyReprElems : List PyVal → String
  | [] => ""
  | [x] => pyRepr x
  | x :: y :: rest => pyRepr x ++ ", " ++ pyReprElems (y :: rest)

/-- Comma-separated reprs of dict entries. -/
def pyReprFields : List (String × PyVal) → String
  | [] => ""
  | [kv] => String.singleton sq ++ kv.1 ++ String.singleton sq ++ ": " ++ pyRepr kv.2
  | kv :: kv2 :: rest =>
      String.singleton sq ++ kv.1 ++ String.singleton sq ++ ": " ++ pyRepr kv.2 ++ ", "
        ++ pyReprFields (kv2 :: rest)
end

/-- Models Python str() applied to a value: the string itself for strings,
repr-style rendering otherwise (str(None) is the string None). -/
def pyStrCoe : PyVal → String
  | .str s => s
  | v => pyRepr v

/-- The first list is a leading segment of the second. -/
def seqStarts : List Char → List Char → Bool
  | [], _ => true
  | _ :: _, [] => false
  | a :: as, b :: bs => a == b && seqStarts as bs

/-- The first list occurs contiguously inside the second. -/
def seqInfix (needle : List Char) : List Char → Bool
  | [] => needle.isEmpty
  | b :: bs => seqStarts needle (b :: bs) || seqInfix needle bs

/-- Models the Python substring test needle in hay. -/
def strContains (hay needle : String) : Bool := seqInfix needle.toList hay.toList

/-- Python string slice s[a:b] with negative-index normalisation and
clamping. -/
def pySliceStr (s : String) (a b : Int) : String :=
  let cs := s.toList
  let n : Int := cs.length
  let norm : Int → Nat := fun i => (if i < 0 then max 0 (n + i) else min i n).toNat
  String.mk ((cs.take (norm b)).drop (norm a))

/-- Python str.find for a single character: first index, or -1 when absent. -/
def pyFindChar (s : String) (c : Char) : Int :=
  match s.toList.findIdx? (fun d => d == c) with
  | some i => (i : Int)
  | Option.none => -1

/-- Python str.rfind for a single character: last index, or -1 when absent. -/
def pyRFindChar (s : String) (c : Char) : Int :=
  match s.toList.reverse.findIdx? (fun d => d == c) with
  | some i => ((s.toList.length - 1 - i : Nat) : Int)
  | Option.none => -1

/-- The best-effort JSON repair of src/main.py lines 219-221: slice the
captured text from the first opening brace to the last closing brace. -/
def sliceBraces (s : String) : String :=
  pySliceStr s (pyFindChar s lbrace) (pyRFindChar s rbrace + 1)

/-- Leading run of decimal digits. -/
def leadDigits : List Char → List Char
  | [] => []
  | c :: rest => if c.isDigit then c :: leadDigits rest else []

def jobSeg : List Char := ['/', 'j', 'o', 'b', '/']

/-- Scan for the first position where the job-detail pattern matches and
return the maximal digit run that follows it. -/
def jobIdFrom : List Char → Option String
  | [] => Option.none
  | c :: rest =>
    if seqStarts jobSeg (c :: rest) then
      let ds := leadDigits ((c :: rest).drop 5)
      if ds.isEmpty then jobIdFrom rest else some (String.mk ds)
    else jobIdFrom rest

/-- Models Python str.lower (ASCII case folding, as Char.toLower). -/
def strLower (s : String) : String := String.mk (s.toList.map Char.toLower)

/-- Models Python str.strip with the default whitespace set. -/
def pyStrip (s : String) : String :=
  String.mk (((s.toList.dropWhile Char.isWhitespace).reverse.dropWhile Char.isWhitespace).reverse)

/-- Split a character list at every occurrence of the separator. -/
def splitOnChar (c : Char) : List Char → List (List Char)
  | [] => [[]]
  | d :: rest =>
    if d == c then [] :: splitOnChar c rest
    else
      match splitOnChar c rest with
      | [] => [[d]]
      | g :: gs => (d :: g) :: gs

/-- Models Python str.split on a one-character separator (the empty string
splits to one empty field, like Python). -/
def pySplit (s : String) (c : Char) : List String := (splitOnChar c s.toList).map String.mk

/-- Models re.search over a href for the job-link pattern: the slash-job-slash
segment followed by one or more digits, capturing the digits. -/
def reJobId (href : String) : Option String := jobIdFrom href.toList

/-- The job dictionary built by SeekScraper._parse_response.  The id and url
values are always strings in the source (both strategies pass them through
str() or build them by formatting); the remaining values are whatever Python
value the item carried, so they stay as PyVal. -/
structure JobRecord where
  id : String
  title : PyVal
  advertiser : PyVal
  location : PyVal
  salary : PyVal
  url : String
  listingDate : PyVal

/-- One iteration of the Redux item loop (src/main.py lines 241-254).  A
non-dict item raises inside the try block and is skipped, which the model
renders as Option.none; dict items never raise there, all operations on them
being total. -/
def extractItem (baseUrl : String) (item : PyVal) : Option JobRecord :=
  match item with
  | PyVal.dict f =>
    let jid := pyStrCoe (pyOr (pyGet f "id") (pyOr (pyGet f "jobId") (pyGet f "job_id")))
    some
      { id := jid
        title := pyOr (pyGet f "title") (pyOr (pyGet f "occupation") (.str "Unknown"))
        advertiser :=
          match pyGet f "advertiser" with
          | PyVal.dict af => pyGet af "description"
          | v => pyOr v (.str "Unknown")
        location := pyOr (pyGet f "location") (.str "Unknown")
        salary := pyOr (pyGet f "salary") (.str "N/A")
        url := baseUrl ++ "/job/" ++ jid
        listingDate := pyOr (pyGet f "listingDate") (pyOr (pyGet f "postedDate") (.str "Unknown")) }
  | _ => Option.none

/-- Walk one nesting path through the parsed blob, as in line 234: at each
key take node.get(key, empty-dict) when the node is a dict, else empty-dict. -/
def probePath (root : PyVal) (path : List String) : PyVal :=
  path.foldl
    (fun node key =>
      match node with
      | PyVal.dict fs => pyGetD fs key (PyVal.dict [])
      | _ => PyVal.dict []) root

def seekPaths : List (List String) :=
  [["results", "jobs"], ["search", "results", "jobs"], ["jobs"]]

/-- The first known nesting path that resolves to a non-empty list gives the
item list; otherwise the empty list (the for-else of lines 231-239). -/
def resultsList (root : PyVal) : List PyVal :=
  match seekPaths.findSome?
      (fun p =>
        match probePath root p with
        | PyVal.list xs => if xs.isEmpty then Option.none else some xs
        | _ => Option.none) with
  | some xs => xs
  | Option.none => []

/-- The structured-data strategy applied to an already-parsed blob: one
record per dict item of the selected list, non-dict items skipped. -/
def structuredJobs (baseUrl : String) (root : PyVal) : List JobRecord :=
  (resultsList root).filterMap (extractItem baseUrl)

/-- One script tag of the page, lines 206-224: Option.none when the script
has no string, otherwise the regex capture is attempted and the captured
text is parsed directly, then once more after the brace-slice repair; a
successful parse breaks the loop with that value. -/
def parseReduxScript (jsonLoads : String → Option PyVal)
    (reduxMatch : String → Option String) (s : Option String) : Option PyVal :=
  match s with
  | Option.none => Option.none
  | some str =>
    if str = "" then Option.none
    else
      match reduxMatch str with
      | Option.none => Option.none
      | some cand =>
        match jsonLoads cand with
        | some v => some v
        | Option.none => jsonLoads (sliceBraces cand)

/-- The script loop of lines 206-224: the first script whose captured blob
parses (directly or repaired) supplies the Redux value. -/
def findRedux (jsonLoads : String → Option PyVal) (reduxMatch : String → Option String) :
    List (Option String) → Option PyVal
  | [] => Option.none
  | s :: rest =>
    match parseReduxScript jsonLoads reduxMatch s with
    | some v => some v
    | Option.none => findRedux jsonLoads reduxMatch rest

/-- One candidate node of the DOM fallback, abstracted to exactly the data
the loop of lines 294-355 reads from it through BeautifulSoup: whether the
node is an anchor and its own href and stripped text, the href and stripped
text of the first descendant job link, the two data attributes, the stripped
text of the first heading when one exists, the aria-label attribute, and the
stripped texts of the resolved advertiser, location, salary and date tags
when those lookups succeed. -/
structure DomCandidate where
  isAnchor : Bool
  selfHref : Option String
  selfText : String
  innerJobLink : Option (String × String)
  dataJobId : Option String
  dataAutomationId : Option String
  heading : Option String
  ariaLabel : Option String
  companyText : Option String
  locationText : Option String
  salaryText : Option String
  dateText : Option String

/-- An optional string is truthy when present and non-empty (a missing
attribute reads as None). -/
def optTruthy : Option String → Bool
  | some s => s != ""
  | Option.none => false

/-- Python a or b over two optional attribute reads. -/
def pyOrAttr (a b : Option String) : Option String :=
  if optTruthy a then a else b

/-- One iteration of the DOM candidate loop, lines 294-355. -/
def domExtract (baseUrl : String) (c : DomCandidate) : Option JobRecord :=
  let link : Option (String × String) :=
    if c.isAnchor && optTruthy c.selfHref then some (c.selfHref.getD "", c.selfText)
    else c.innerJobLink
  let jobId0 : Option String :=
    match link with
    | some (href, _) => reJobId href
    | Option.none => Option.none
  let jobId1 : Option String :=
    match jobId0 with
    | some j => some j
    | Option.none => pyOrAttr c.dataJobId c.dataAutomationId
  if optTruthy jobId1 then
    let jid := jobId1.getD ""
    let title : String :=
      match link with
      | some (_, t) =>
        if t != "" then t
        else
          match c.heading with
          | some h => if h != "" then h else (if optTruthy c.ariaLabel then c.ariaLabel.getD "" else "Unknown")
          | Option.none => if optTruthy c.ariaLabel then c.ariaLabel.getD "" else "Unknown"
      | Option.none =>
        match c.heading with
        | some h => if h != "" then h else (if optTruthy c.ariaLabel then c.ariaLabel.getD "" else "Unknown")
        | Option.none => if optTruthy c.ariaLabel then c.ariaLabel.getD "" else "Unknown"
    let url : String :=
      match link with
      | some (href, _) =>
        if href != "" && seqStarts ['/'] href.toList then baseUrl ++ href
        else baseUrl ++ "/job/" ++ jid
      | Option.none => baseUrl ++ "/job/" ++ jid
    some
      { id := jid
        title := .str title
        advertiser := .str ((c.companyText).getD "Unknown")
        location := .str ((c.locationText).getD "Unknown")
        salary := .str ((c.salaryText).getD "N/A")
        url := url
        listingDate := .str ((c.dateText).getD "Unknown") }
  else Option.none

/-- A fetched page, abstracted to what _parse_response reads: the string of
each script tag, and the identity-deduplicated DOM candidate sequence built
by lines 266-290. -/
structure Page where
  scripts : List (Option String)
  domCandidates : List DomCandidate

/-- The DOM fallback strategy over a page. -/
def domJobs (baseUrl : String) (page : Page) : List JobRecord :=
  page.domCandidates.filterMap (domExtract baseUrl)

/-- SeekScraper._parse_response: the structured strategy is authoritative
when the parsed blob is truthy and yields at least one record; otherwise the
DOM fallback runs.  The regex search and json.loads are external library
calls and enter as function parameters. -/
def parse_response (jsonLoads : String → Option PyVal)
    (reduxMatch : String → Option String) (baseUrl : String) (page : Page) : List JobRecord :=
  let sjobs : List JobRecord :=
    match findRedux jsonLoads reduxMatch page.scripts with
    | some root => if truthy root then structuredJobs baseUrl root else []
    | Option.none => []
  if sjobs.isEmpty then domJobs baseUrl page else sjobs

/-- matches_location (src/main.py lines 95-113) reading the location value
of a job dict.  The empty desired location returns True before the location
value is touched.  Calling strip() on a truthy non-string value raises
AttributeError, which propagates out of the function; that raise is the
Option.none result. -/
def matches_location (loc : PyVal) (desired : String) : Option Bool :=
  if desired = "" then some true
  else
    match pyOr loc (.str "") with
    | PyVal.str s =>
      let l := pyStrip s
      if l = "" ∨ strLower l = "unknown" ∨ strLower l = "n/a" then some false
      else
        let tokens := (pySplit desired ',').filterMap
          (fun d => if pyStrip d = "" then Option.none else some (strLower (pyStrip d)))
        some (tokens.any (fun token => strContains (strLower l) token))
    | _ => Option.none

/-- looks_automated (src/main.py lines 85-92) reading the title and
advertiser values of a job dict against the configured keyword list (already
stripped, lowercased and purged of blanks at module load).  Calling lower()
on a truthy non-string value raises, modelled as Option.none. -/
def looks_automated (excl : List String) (title advertiser : PyVal) : Option Bool :=
  match pyOr title (.str ""), pyOr advertiser (.str "") with
  | PyVal.str t, PyVal.str a =>
    some (excl.any (fun kw => strContains (strLower t) kw || strContains (strLower a) kw))
  | _, _ => Option.none

/-- Insert-or-replace on an association list, keeping the position of an
existing key: the semantics of repeated assignment to a Python dict key. -/
def updAssoc (m : List (String × JobRecord)) (k : String) (v : JobRecord) :
    List (String × JobRecord) :=
  match m with
  | [] => [(k, v)]
  | kv0 :: rest => if kv0.1 = k then (k, v) :: rest else kv0 :: updAssoc rest k v

/-- The cross-batch dedup of line 438: the dict comprehension keyed by id
over records with a truthy id, then values() in key-insertion order. -/
def dedupById (jobs : List JobRecord) : List JobRecord :=
  (jobs.foldl (fun m j => if j.id = "" then m else updAssoc m j.id j) []).map
    (fun kv => kv.2)

/-- The reconciliation loop of main, lines 443-460: skip blank ids, skip ids
already seen, apply the location filter then the automation exclusion, and
notify survivors while adding their ids to the seen set.  A raise inside
either filter aborts the whole run (Option.none). -/
def reconcile (excl : List String) (desired : String) :
    List JobRecord → Finset String → Option (List JobRecord × Finset String)
  | [], seen => some ([], seen)
  | j :: rest, seen =>
    if j.id = "" then reconcile excl desired rest seen
    else if j.id ∈ seen then reconcile excl desired rest seen
    else
      match matches_location j.location desired with
      | Option.none => Option.none
      | some false => reconcile excl desired rest seen
      | some true =>
        match looks_automated excl j.title j.advertiser with
        | Option.none => Option.none
        | some true => reconcile excl desired rest seen
        | some false =>
          match reconcile excl desired rest (insert j.id seen) with
          | Option.none => Option.none
          | some (out, s) => some (j :: out, s)

/-- save_state (lines 411-415) writes list(seen_ids)[-2000:].  The Python
set is unordered, so the listing it hands to the slice is an arbitrary
enumeration of the set; the function below receives that enumeration and
keeps its last 2000 entries, which is what the slice does. -/
def save_state (enumeration : List String) : List String :=
  enumeration.drop (enumeration.length - 2000)

/-- The end of main, lines 462-466: the state file is rewritten (once) only
when new_count is non-zero, and the write replaces the previous content with
save_state of the current seen set; otherwise the persisted state is left
untouched.  The pair returned is the resulting persisted content and the
number of save_state calls. -/
def runFinish (persistedBefore : List String) (newCount : Nat)
    (enumeration : List String) : List String × Nat :=
  if newCount ≠ 0 then (save_state enumeration, 1) else (persistedBefore, 0)

/-- An enumeration of a finite set of ids: what list() applied to the Python
set can return, namely the elements of the set, each once, in some order. -/
def enumerates (e : List String) (s : Finset String) : Prop :=
  e.Nodup ∧ (∀ x ∈ e, x ∈ s) ∧ (∀ x ∈ s, x ∈ e)

instance (e : List String) (s : Finset String) : Decidable (enumerates e s) := by
  unfold enumerates
  infer_instance

def MAX_RETRIES : Nat := 5

def RETRY_DELAY : Nat := 5

/-- The observable outcome of one fetch attempt: an HTTP response with its
status and body, or a network-level RequestException. -/
inductive FetchOutcome where
  | response (status : Nat) (body : String)
  | netError

/-- The retry loop of SeekScraper.search, lines 171-195, walked over the
given attempt numbers.  Returns the parsed result together with the list of
backoff delays slept, in order.  A 200 parses the body and returns; 403 and
429 sleep RETRY_DELAY * 2 ^ (attempt - 1) and continue; any other status
breaks out and the function returns the empty list; a network error sleeps
the same backoff and continues; running out of attempts returns the empty
list. -/
def searchLoop (parse : String → List JobRecord) (outcomes : Nat → FetchOutcome) :
    List Nat → List JobRecord × List Nat
  | [] => ([], [])
  | a :: rest =>
    match outcomes a with
    | FetchOutcome.response s body =>
      if s = 200 then (parse body, [])
      else if s = 403 ∨ s = 429 then
        let r := searchLoop parse outcomes rest
        (r.1, RETRY_DELAY * 2 ^ (a - 1) :: r.2)
      else ([], [])
    | FetchOutcome.netError =>
      let r := searchLoop parse outcomes rest
      (r.1, RETRY_DELAY * 2 ^ (a - 1) :: r.2)

/-- SeekScraper.search for one keyword: the retry loop over attempts one
through MAX_RETRIES. -/
def search (parse : String → List JobRecord) (outcomes : Nat → FetchOutcome) :
    List JobRecord × List Nat :=
  searchLoop parse outcomes ((List.range MAX_RETRIES).map (fun i => i + 1))

/-- The string value a filter-level claim reads off a job field: the string
itself, the empty string for a missing (None) value. -/
def locStr : PyVal → String
  | PyVal.str s => s
  | _ => ""

/-- Modelled from the amended claim C4, following its words: an empty
configured filter accepts every record; otherwise the trimmed location must
be non-empty and not case-insensitively unknown or n/a, and must contain,
case-insensitively, at least one non-blank comma-separated configured
token. -/
def specLocationPass (loc desired : String) : Bool :=
  if desired = "" then true
  else if pyStrip loc = "" then false
  else if strLower (pyStrip loc) = "unknown" then false
  else if strLower (pyStrip loc) = "n/a" then false
  else ((pySplit desired ',').map pyStrip).any
      (fun t => !(t == "") && strContains (strLower (pyStrip loc)) (strLower t))

lemma pyOr_str_empty (s : String) : pyOr (PyVal.str s) (PyVal.str "") = PyVal.str s := by
  by_cases h : s = ""
  · subst h; rfl
  · simp [pyOr, truthy, h]

lemma toList_ne_nil (kw : String) (h : kw ≠ "") : kw.toList ≠ [] := by
  intro hnil
  apply h
  cases kw with
  | mk data =>
    simp only [String.toList] at hnil
    subst hnil
    rfl

lemma strContains_empty_hay (kw : String) (h : kw ≠ "") : strContains "" kw = false := by
  have hne := toList_ne_nil kw h
  unfold strContains
  cases hk : kw.toList with
  | nil => exact absurd hk hne
  | cons c cs => rfl

lemma tokens_any_eq (l : String) (ds : List String) :
    (ds.filterMap (fun d => if pyStrip d = "" then Option.none else some (strLower (pyStrip d)))).any
        (fun token => strContains l token)
      = (ds.map pyStrip).any (fun t => !(t == "") && strContains l (strLower t)) := by
  induction ds with
  | nil => rfl
  | cons d rest ih =>
    by_cases hd : pyStrip d = ""
    · simp [List.filterMap_cons, hd, ih]
    · have hb : (pyStrip d == "") = false := beq_eq_false_iff_ne.mpr hd
      simp [List.filterMap_cons, hd, hb, ih]

/-- C4 counterexample.  The claim says the filter rejects a record whose
location is the sentinel Unknown for every configured filter string
including the empty string, and that a non-sentinel location passes iff it
contains a configured token; the code returns True for every record when the
configured filter is empty, and rejects the non-sentinel location UNKNOWN
that does contain the configured token unk. -/
theorem location_filter_cex :
    matches_location (PyVal.str "Unknown") "" = some true ∧
    matches_location (PyVal.str "UNKNOWN") "unk" = some false := by
  exact ⟨by decide, by decide⟩

/-- C4 amended: when the configured filter is empty every record passes,
sentinel or not; otherwise the record passes iff its stripped location is
non-empty, not case-insensitively unknown or n/a, and contains one of the
non-blank configured tokens case-insensitively.  Stated for the values the
location field of a record can carry at filter time, namely a string or a
missing value. -/
theorem location_filter_amended (loc : PyVal) (desired : String)
    (h : loc = PyVal.none ∨ ∃ s, loc = PyVal.str s) :
    matches_location loc desired = some (specLocationPass (locStr loc) desired) := by
  have main : ∀ s : String,
      matches_location (PyVal.str s) desired = some (specLocationPass s desired) := by
    intro s
    by_cases hdes : desired = ""
    · subst hdes; rfl
    · by_cases h1 : pyStrip s = ""
      · simp [matches_location, specLocationPass, pyOr_str_empty, hdes, h1]
      · by_cases h2 : strLower (pyStrip s) = "unknown"
        · simp [matches_location, specLocationPass, pyOr_str_empty, hdes, h1, h2]
        · by_cases h3 : strLower (pyStrip s) = "n/a"
          · simp [matches_location, specLocationPass, pyOr_str_empty, hdes, h1, h2, h3]
          · simp only [matches_location, specLocationPass, pyOr_str_empty, if_neg hdes,
              if_neg h1, if_neg h2, if_neg h3, if_neg (by simp [h1, h2, h3] :
                ¬(pyStrip s = "" ∨ strLower (pyStrip s) = "unknown" ∨ strLower (pyStrip s) = "n/a"))]
            exact congrArg some (tokens_any_eq (strLower (pyStrip s)) (pySplit desired ','))
  rcases h with hn | ⟨s, hs⟩
  · subst hn
    have heq : matches_location PyVal.none desired = matches_location (PyVal.str "") desired := rfl
    rw [heq]
    exact main ""
  · subst hs
    exact main s

/-- C4 witness: a record located at Auckland CBD passes the configured
filter Auckland, by the amended theorem evaluated at that input. -/
theorem location_filter_amended_witness :
    matches_location (PyVal.str "Auckland CBD") "Auckland"
        = some (specLocationPass "Auckland CBD" "Auckland")
      ∧ specLocationPass "Auckland CBD" "Auckland" = true := by
  refine ⟨location_filter_amended (PyVal.str "Auckland CBD") "Auckland" (Or.inr ⟨_, rfl⟩), ?_⟩
  decide

/-- C10: the automation-exclusion check is total on records with missing or
empty title and advertiser and, for any keyword list free of empty keywords,
never rejects such a record: both fields read back as the empty string, and
a non-empty keyword is never a substring of the empty string. -/
theorem exclusion_blank_fields_safe (excl : List String) (h : ∀ kw ∈ excl, kw ≠ "")
    (title advertiser : PyVal)
    (ht : title = PyVal.none ∨ title = PyVal.str "")
    (ha : advertiser = PyVal.none ∨ advertiser = PyVal.str "") :
    looks_automated excl title advertiser = some false := by
  have hpy : ∀ v : PyVal, v = PyVal.none ∨ v = PyVal.str "" →
      pyOr v (PyVal.str "") = PyVal.str "" := by
    rintro v (rfl | rfl) <;> rfl
  unfold looks_automated
  rw [hpy title ht, hpy advertiser ha]
  have h0 : strLower "" = "" := rfl
  refine congrArg some ?_
  refine List.any_eq_false.mpr ?_
  intro kw hkw
  rw [h0]
  simp [strContains_empty_hay kw (h kw hkw)]

/-- C10 witness: with the default-style keyword automation and both fields
missing, the exclusion filter returns False without raising. -/
theorem exclusion_blank_fields_safe_witness :
    looks_automated ["automation"] PyVal.none (PyVal.str "") = some false :=
  exclusion_blank_fields_safe ["automation"]
    (by intro kw hkw; simp at hkw; subst hkw; decide)
    PyVal.none (PyVal.str "") (Or.inl rfl) (Or.inr rfl)

lemma updAssoc_const_key (i : String) (v w : JobRecord) :
    updAssoc [(i, v)] i w = [(i, w)] := by
  simp [updAssoc]

lemma dedup_fold_const (i : String) (hi : i ≠ "") :
    ∀ (js : List JobRecord) (v : JobRecord), (∀ j ∈ js, j.id = i) → v.id = i →
      js.foldl (fun m j => if j.id = "" then m else updAssoc m j.id j) [(i, v)]
        = [(i, js.getLast?.getD v)] := by
  intro js
  induction js with
  | nil => intro v _ _; rfl
  | cons j rest ih =>
    intro v hall hv
    have hj : j.id = i := hall j (by simp)
    have hne2 : ¬(j.id = "") := by rw [hj]; exact hi
    rw [List.foldl_cons, if_neg hne2, hj, updAssoc_const_key]
    rw [ih j (fun x hx => hall x (by simp [hx])) hj]
    congr 2
    cases rest with
    | nil => rfl
    | cons r rs =>
      rw [List.getLast?_cons_cons]
      cases hgl : (r :: rs).getLast? with
      | none => rw [List.getLast?_eq_getLast_of_ne_nil (by simp)] at hgl; exact absurd hgl (by simp)
      | some x => rfl

/-- C6: a candidate batch whose records all carry the same non-empty id is
collapsed by the dedup of line 438 to exactly one record, the last of the
batch in iteration order. -/
theorem dedup_last_occurrence_wins (jobs : List JobRecord) (i : String) (hi : i ≠ "")
    (hall : ∀ j ∈ jobs, j.id = i) (hne : jobs ≠ []) :
    dedupById jobs = [jobs.getLast hne] := by
  cases jobs with
  | nil => exact absurd rfl hne
  | cons j rest =>
    have hj : j.id = i := hall j (by simp)
    have hne2 : ¬(j.id = "") := by rw [hj]; exact hi
    unfold dedupById
    rw [List.foldl_cons, if_neg hne2]
    have h0 : updAssoc [] j.id j = [(i, j)] := by rw [hj]; rfl
    rw [h0, dedup_fold_const i hi rest j (fun x hx => hall x (by simp [hx])) hj]
    simp only [List.map_cons, List.map_nil]
    congr 1
    cases rest with
    | nil => rfl
    | cons r rs =>
      rw [List.getLast?_eq_getLast_of_ne_nil (by simp : r :: rs ≠ [])]
      rw [List.getLast_cons (by simp : r :: rs ≠ [])]
      rfl

def isDict : PyVal → Bool
  | PyVal.dict _ => true
  | _ => false

def dictFields : PyVal → List (String × PyVal)
  | PyVal.dict fs => fs
  | _ => []

/-- Modelled from the amended claim C3: the first truthy value stored under
the given keys, else the fallback (a present but falsy value, such as null,
an empty string or zero, is passed over). -/
def firstTruthy (f : List (String × PyVal)) (keys : List String) (fallback : PyVal) : PyVal :=
  match keys with
  | [] => fallback
  | k :: rest => if truthy (pyGet f k) then pyGet f k else firstTruthy f rest fallback

/-- Modelled from the amended claim C3: the record an item dictionary maps
to.  The id is the first truthy of id and jobId, with the raw job_id value
as the final fallback, coerced by str (hence the string None when every id
key is missing or null); title, location, salary and listingDate take the
first truthy of their keys with their sentinels; the advertiser of a
dictionary value is its description field with no default applied (null
when missing), and otherwise the flat value when truthy, else Unknown. -/
def specItemRecord (baseUrl : String) (f : List (String × PyVal)) : JobRecord :=
  let jid := pyStrCoe (firstTruthy f ["id", "jobId"] (pyGet f "job_id"))
  { id := jid
    title := firstTruthy f ["title", "occupation"] (.str "Unknown")
    advertiser :=
      match pyGet f "advertiser" with
      | PyVal.dict af => pyGet af "description"
      | v => if truthy v then v else .str "Unknown"
    location := firstTruthy f ["location"] (.str "Unknown")
    salary := firstTruthy f ["salary"] (.str "N/A")
    url := baseUrl ++ "/job/" ++ jid
    listingDate := firstTruthy f ["listingDate", "postedDate"] (.str "Unknown") }

lemma extractItem_dict (baseUrl : String) (fs : List (String × PyVal)) :
    extractItem baseUrl (PyVal.dict fs) = some (specItemRecord baseUrl fs) := by
  simp only [extractItem, specItemRecord]
  cases hadv : pyGet fs "advertiser" <;> simp [pyOr, firstTruthy]

/-- C3 counterexample.  The claim maps an advertiser that is a nested object
to its description field with default Unknown, and the id to the first
present of id, jobId, job_id coerced to string.  The code leaves the
advertiser of a description-less nested object as None rather than Unknown,
and skips a present-but-empty id value in favour of a later key. -/
theorem structured_defaults_cex :
    ((structuredJobs "https://www.seek.co.nz"
          (PyVal.dict [("jobs", PyVal.list
            [PyVal.dict [("advertiser", PyVal.dict [("name", PyVal.str "Acme")])]])])).map
        (fun r => r.advertiser) = [PyVal.none])
    ∧ PyVal.none ≠ PyVal.str "Unknown"
    ∧ ((structuredJobs "https://www.seek.co.nz"
          (PyVal.dict [("jobs", PyVal.list
            [PyVal.dict [("id", PyVal.str ""), ("jobId", PyVal.str "77")]])])).map
        (fun r => r.id) = ["77"])
    ∧ ("77" : String) ≠ ""
    ∧ ((structuredJobs "https://www.seek.co.nz"
          (PyVal.dict [("jobs", PyVal.list [PyVal.dict []])])).map
        (fun r => r.id) = ["None"]) := by
  refine ⟨rfl, ?_, rfl, by decide, rfl⟩
  intro h
  exact PyVal.noConfusion h

/-- C3 amended: for a parsed blob all of whose selected items are
dictionaries, the structured strategy yields exactly one record per item,
given by the spec-side mapping specItemRecord: each field is the first
truthy value of its key list with the documented sentinel as fallback, the
id is coerced with str and is the string None when no id key holds a truthy
value, and an advertiser that is a nested object contributes its description
field with no further default. -/
theorem structured_defaults_amended (baseUrl : String) (root : PyVal)
    (h : ∀ it ∈ resultsList root, isDict it = true) :
    structuredJobs baseUrl root
      = (resultsList root).map (fun it => specItemRecord baseUrl (dictFields it)) := by
  unfold structuredJobs
  revert h
  generalize resultsList root = L
  induction L with
  | nil => intro h; rfl
  | cons it rest ih =>
    intro h
    have hit := h it (by simp)
    have hrest := fun x hx => h x (List.mem_cons_of_mem _ hx)
    cases it with
    | dict fs =>
      simp only [List.filterMap_cons, extractItem_dict, List.map_cons, ih hrest]
      rfl
    | none => simp [isDict] at hit
    | bool b => simp [isDict] at hit
    | int n => simp [isDict] at hit
    | str st => simp [isDict] at hit
    | list xs => simp [isDict] at hit

def rootExampleC3 : PyVal :=
  PyVal.dict [("results", PyVal.dict [("jobs", PyVal.list
    [PyVal.dict [],
     PyVal.dict [("id", PyVal.int 123), ("title", PyVal.str "Manual QA"),
                 ("advertiser", PyVal.dict [("description", PyVal.str "Acme")]),
                 ("location", PyVal.str "Auckland"), ("salary", PyVal.str "100k"),
                 ("listingDate", PyVal.str "today")]])])]

/-- C3 witness: the amended theorem evaluated on a blob holding an item with
every field absent and an item with every field present. -/
theorem structured_defaults_amended_witness :
    structuredJobs "https://www.seek.co.nz" rootExampleC3
      = (resultsList rootExampleC3).map
          (fun it => specItemRecord "https://www.seek.co.nz" (dictFields it)) :=
  structured_defaults_amended "https://www.seek.co.nz" rootExampleC3 (by decide)

/-- C6 witness: two records sharing id 7 collapse to the second one. -/
theorem dedup_last_occurrence_wins_witness :
    dedupById
        [{ id := "7", title := .str "a", advertiser := .none, location := .none,
           salary := .none, url := "u1", listingDate := .none },
         { id := "7", title := .str "b", advertiser := .none, location := .none,
           salary := .none, url := "u2", listingDate := .none }]
      = [{ id := "7", title := .str "b", advertiser := .none, location := .none,
           salary := .none, url := "u2", listingDate := .none }] := by
  have h := dedup_last_occurrence_wins
    [{ id := "7", title := .str "a", advertiser := .none, location := .none,
       salary := .none, url := "u1", listingDate := .none },
     { id := "7", title := .str "b", advertiser := .none, location := .none,
       salary := .none, url := "u2", listingDate := .none }] "7"
    (by decide)
    (by intro j hj
        simp only [List.mem_cons, List.mem_singleton] at hj
        rcases hj with h1 | h1 | h1
        · rw [h1]
        · rw [h1]
        · exact absurd h1 (by simp))
    (by simp)
  rw [h]
  rfl

lemma findRedux_none (jsonLoads : String → Option PyVal)
    (reduxMatch : String → Option String) (scripts : List (Option String))
    (h : ∀ s ∈ scripts, parseReduxScript jsonLoads reduxMatch s = Option.none) :
    findRedux jsonLoads reduxMatch scripts = Option.none := by
  induction scripts with
  | nil => rfl
  | cons s rest ih =>
    unfold findRedux
    rw [h s (by simp)]
    exact ih (fun x hx => h x (List.mem_cons_of_mem _ hx))

lemma extractItem_nonDict (baseUrl : String) (v : PyVal) (h : isDict v = false) :
    extractItem baseUrl v = Option.none := by
  cases v with
  | dict fs => simp [isDict] at h
  | none => rfl
  | bool b => rfl
  | int n => rfl
  | str s => rfl
  | list xs => rfl

/-- C5: extraction is a total function of the page (the model needs no
escape for exceptions), and degrades rather than fails: whenever every
script blob of the page is malformed -- the captured text parses neither
directly nor after the brace-slice repair -- the result of _parse_response
is exactly the result of the DOM fallback strategy; and inside the
structured strategy a single bad (non-dictionary) item is skipped without
affecting the records of the remaining items. -/
theorem malformed_blob_falls_through (jsonLoads : String → Option PyVal)
    (reduxMatch : String → Option String) (baseUrl : String) (page : Page)
    (h : ∀ str1 ∈ page.scripts, ∀ s, str1 = some s → ∀ cand, reduxMatch s = some cand →
        jsonLoads cand = Option.none ∧ jsonLoads (sliceBraces cand) = Option.none) :
    parse_response jsonLoads reduxMatch baseUrl page = domJobs baseUrl page
    ∧ (∀ (before after : List PyVal) (bad : PyVal) (b2 : String), isDict bad = false →
        (before ++ bad :: after).filterMap (extractItem b2)
          = (before ++ after).filterMap (extractItem b2)) := by
  constructor
  · have hall : ∀ s ∈ page.scripts, parseReduxScript jsonLoads reduxMatch s = Option.none := by
      intro s hs
      cases s with
      | none => rfl
      | some str1 =>
        by_cases hemp : str1 = ""
        · simp [parseReduxScript, hemp]
        · cases hm : reduxMatch str1 with
          | none => simp [parseReduxScript, hemp, hm]
          | some cand =>
            obtain ⟨h1, h2⟩ := h (some str1) hs str1 rfl cand hm
            simp [parseReduxScript, hemp, hm, h1, h2]
    unfold parse_response
    rw [findRedux_none jsonLoads reduxMatch page.scripts hall]
    rfl
  · intro before after bad b2 hbad
    rw [List.filterMap_append, List.filterMap_append, List.filterMap_cons,
      extractItem_nonDict b2 bad hbad]

def candW : DomCandidate :=
  { isAnchor := true, selfHref := some "/job/123", selfText := "Manual QA Tester",
    innerJobLink := Option.none, dataJobId := Option.none, dataAutomationId := Option.none,
    heading := Option.none, ariaLabel := Option.none, companyText := some "Acme",
    locationText := some "Auckland", salaryText := Option.none, dateText := Option.none }

def pageW : Page :=
  { scripts := [Option.none, some "window data blob that does not parse"],
    domCandidates := [candW] }

/-- C5 witness: with a parser that rejects everything, a page whose only
non-empty script is malformed extracts exactly the DOM fallback records. -/
theorem malformed_blob_falls_through_witness :
    parse_response (fun _ => Option.none) (fun s => some s) "https://www.seek.co.nz" pageW
      = domJobs "https://www.seek.co.nz" pageW :=
  (malformed_blob_falls_through (fun _ => Option.none) (fun s => some s)
    "https://www.seek.co.nz" pageW
    (by intro str1 h1 s hs cand hc; exact ⟨rfl, rfl⟩)).1

/-- A fetch outcome the retry loop keeps retrying on: a blocking or
rate-limiting response, or a network-level error. -/
def retryable : FetchOutcome → Prop
  | FetchOutcome.response s _ => s = 403 ∨ s = 429
  | FetchOutcome.netError => True

instance : (o : FetchOutcome) → Decidable (retryable o)
  | FetchOutcome.response s _ => inferInstanceAs (Decidable (s = 403 ∨ s = 429))
  | FetchOutcome.netError => inferInstanceAs (Decidable True)

lemma searchLoop_cons_response (parse : String → List JobRecord)
    (outcomes : Nat → FetchOutcome) (a : Nat) (rest : List Nat) (s : Nat) (body : String)
    (h : outcomes a = FetchOutcome.response s body) :
    searchLoop parse outcomes (a :: rest)
      = (if s = 200 then (parse body, [])
         else if s = 403 ∨ s = 429 then
           ((searchLoop parse outcomes rest).1,
            RETRY_DELAY * 2 ^ (a - 1) :: (searchLoop parse outcomes rest).2)
         else ([], [])) := by
  conv_lhs => unfold searchLoop
  rw [h]

lemma searchLoop_retry (parse : String → List JobRecord) (outcomes : Nat → FetchOutcome)
    (a : Nat) (rest : List Nat) (h : retryable (outcomes a)) :
    searchLoop parse outcomes (a :: rest)
      = ((searchLoop parse outcomes rest).1,
         RETRY_DELAY * 2 ^ (a - 1) :: (searchLoop parse outcomes rest).2) := by
  cases ho : outcomes a with
  | response s body =>
    rw [ho] at h
    rw [searchLoop_cons_response parse outcomes a rest s body ho]
    have h' : s = 403 ∨ s = 429 := h
    have h200 : ¬(s = 200) := by rintro rfl; rcases h' with h2 | h2 <;> simp at h2
    rw [if_neg h200, if_pos h']
  | netError =>
    conv_lhs => unfold searchLoop
    rw [ho]

lemma searchLoop_success (parse : String → List JobRecord) (outcomes : Nat → FetchOutcome)
    (a : Nat) (rest : List Nat) (body : String)
    (h : outcomes a = FetchOutcome.response 200 body) :
    searchLoop parse outcomes (a :: rest) = (parse body, []) := by
  rw [searchLoop_cons_response parse outcomes a rest 200 body h]
  rw [if_pos rfl]

lemma searchLoop_abort (parse : String → List JobRecord) (outcomes : Nat → FetchOutcome)
    (a : Nat) (rest : List Nat) (s : Nat) (body : String)
    (h : outcomes a = FetchOutcome.response s body)
    (h200 : s ≠ 200) (h403 : s ≠ 403) (h429 : s ≠ 429) :
    searchLoop parse outcomes (a :: rest) = ([], []) := by
  rw [searchLoop_cons_response parse outcomes a rest s body h]
  rw [if_neg h200, if_neg (by rintro (h | h) <;> [exact h403 h; exact h429 h])]

/-- C8: the fetch-retry policy of SeekScraper.search.  First conjunct: five
retryable outcomes in a row (403, 429 or a network error every time) exhaust
the loop with zero items, having slept the exponentially increasing delays
5, 10, 20, 40, 80.  Second conjunct: an outcome with any other non-200
status at attempt k, after retryable outcomes before it, aborts immediately
with zero items and exactly the k-1 backoffs already slept, with no further
retry.  Third conjunct: three rate-limit responses followed by a 200 yield
the parsed body with the three backoffs 5, 10, 20 and no failure. -/
theorem retry_policy (parse : String → List JobRecord) :
    (∀ outcomes : Nat → FetchOutcome,
        (∀ a, 1 ≤ a → a ≤ 5 → retryable (outcomes a)) →
        search parse outcomes = ([], [5, 10, 20, 40, 80]))
    ∧ (∀ outcomes : Nat → FetchOutcome, ∀ k s body,
        1 ≤ k → k ≤ 5 → (∀ a, 1 ≤ a → a < k → retryable (outcomes a)) →
        outcomes k = FetchOutcome.response s body →
        s ≠ 200 → s ≠ 403 → s ≠ 429 →
        (search parse outcomes).1 = [] ∧ (search parse outcomes).2.length = k - 1)
    ∧ (∀ outcomes : Nat → FetchOutcome, ∀ b1 b2 b3 body,
        outcomes 1 = FetchOutcome.response 429 b1 →
        outcomes 2 = FetchOutcome.response 429 b2 →
        outcomes 3 = FetchOutcome.response 429 b3 →
        outcomes 4 = FetchOutcome.response 200 body →
        search parse outcomes = (parse body, [5, 10, 20])) := by
  refine ⟨?_, ?_, ?_⟩
  · intro outcomes h
    have e : search parse outcomes = searchLoop parse outcomes [1, 2, 3, 4, 5] := rfl
    rw [e, searchLoop_retry parse outcomes 1 _ (h 1 (by norm_num) (by norm_num)),
        searchLoop_retry parse outcomes 2 _ (h 2 (by norm_num) (by norm_num)),
        searchLoop_retry parse outcomes 3 _ (h 3 (by norm_num) (by norm_num)),
        searchLoop_retry parse outcomes 4 _ (h 4 (by norm_num) (by norm_num)),
        searchLoop_retry parse outcomes 5 _ (h 5 (by norm_num) (by norm_num))]
    rfl
  · intro outcomes k s body hk1 hk5 hpre hout h200 h403 h429
    have e : search parse outcomes = searchLoop parse outcomes [1, 2, 3, 4, 5] := rfl
    interval_cases k
    · rw [e, searchLoop_abort parse outcomes 1 _ s body hout h200 h403 h429]
      exact ⟨rfl, rfl⟩
    · rw [e, searchLoop_retry parse outcomes 1 _ (hpre 1 (by norm_num) (by norm_num)),
          searchLoop_abort parse outcomes 2 _ s body hout h200 h403 h429]
      exact ⟨rfl, rfl⟩
    · rw [e, searchLoop_retry parse outcomes 1 _ (hpre 1 (by norm_num) (by norm_num)),
          searchLoop_retry parse outcomes 2 _ (hpre 2 (by norm_num) (by norm_num)),
          searchLoop_abort parse outcomes 3 _ s body hout h200 h403 h429]
      exact ⟨rfl, rfl⟩
    · rw [e, searchLoop_retry parse outcomes 1 _ (hpre 1 (by norm_num) (by norm_num)),
          searchLoop_retry parse outcomes 2 _ (hpre 2 (by norm_num) (by norm_num)),
          searchLoop_retry parse outcomes 3 _ (hpre 3 (by norm_num) (by norm_num)),
          searchLoop_abort parse outcomes 4 _ s body hout h200 h403 h429]
      exact ⟨rfl, rfl⟩
    · rw [e, searchLoop_retry parse outcomes 1 _ (hpre 1 (by norm_num) (by norm_num)),
          searchLoop_retry parse outcomes 2 _ (hpre 2 (by norm_num) (by norm_num)),
          searchLoop_retry parse outcomes 3 _ (hpre 3 (by norm_num) (by norm_num)),
          searchLoop_retry parse outcomes 4 _ (hpre 4 (by norm_num) (by norm_num)),
          searchLoop_abort parse outcomes 5 _ s body hout h200 h403 h429]
      exact ⟨rfl, rfl⟩
  · intro outcomes b1 b2 b3 body h1 h2 h3 h4
    have e : search parse outcomes = searchLoop parse outcomes [1, 2, 3, 4, 5] := rfl
    rw [e, searchLoop_retry parse outcomes 1 _ (by rw [h1]; exact Or.inr rfl),
        searchLoop_retry parse outcomes 2 _ (by rw [h2]; exact Or.inr rfl),
        searchLoop_retry parse outcomes 3 _ (by rw [h3]; exact Or.inr rfl),
        searchLoop_success parse outcomes 4 _ body h4]
    rfl

def outcomesC8 : Nat → FetchOutcome := fun a =>
  if a = 4 then FetchOutcome.response 200 "B" else FetchOutcome.response 429 ""

/-- C8 witness: three rate-limited attempts then a 200 on the fourth, with a
parser returning no records, complete with the three exponential backoffs
and no failure. -/
theorem retry_policy_witness :
    search (fun _ => []) outcomesC8 = ([], [5, 10, 20]) :=
  (retry_policy (fun _ => [])).2.2 outcomesC8 "" "" "" "B" rfl rfl rfl rfl

lemma reconcile_mono (excl : List String) (desired : String) :
    ∀ (jobs : List JobRecord) (seen : Finset String) (out : List JobRecord) (s1 : Finset String),
      reconcile excl desired jobs seen = some (out, s1) → seen ⊆ s1 := by
  intro jobs
  induction jobs with
  | nil =>
    intro seen out s1 h
    simp only [reconcile, Option.some.injEq, Prod.mk.injEq] at h
    exact h.2 ▸ Finset.Subset.refl seen
  | cons j rest ih =>
    intro seen out s1 h
    unfold reconcile at h
    split at h
    · exact ih seen out s1 h
    · split at h
      · exact ih seen out s1 h
      · split at h
        · exact absurd h (by simp)
        · exact ih seen out s1 h
        · split at h
          · exact absurd h (by simp)
          · exact ih seen out s1 h
          · split at h
            · exact absurd h (by simp)
            · rename_i out0 s0 heq
              simp only [Option.some.injEq, Prod.mk.injEq] at h
              have hsub := ih (insert j.id seen) out0 s0 heq
              exact h.2 ▸ Finset.Subset.trans (Finset.subset_insert _ _) hsub

lemma reconcile_cons_inv (excl : List String) (desired : String) (j : JobRecord)
    (rest : List JobRecord) (seen : Finset String) (out : List JobRecord) (s1 : Finset String)
    (h : reconcile excl desired (j :: rest) seen = some (out, s1)) :
    (j.id = "" ∧ reconcile excl desired rest seen = some (out, s1))
    ∨ (¬(j.id = "") ∧ j.id ∈ seen ∧ reconcile excl desired rest seen = some (out, s1))
    ∨ (¬(j.id = "") ∧ ¬(j.id ∈ seen)
        ∧ matches_location j.location desired = some false
        ∧ reconcile excl desired rest seen = some (out, s1))
    ∨ (¬(j.id = "") ∧ ¬(j.id ∈ seen)
        ∧ matches_location j.location desired = some true
        ∧ looks_automated excl j.title j.advertiser = some true
        ∧ reconcile excl desired rest seen = some (out, s1))
    ∨ (¬(j.id = "") ∧ ¬(j.id ∈ seen)
        ∧ matches_location j.location desired = some true
        ∧ looks_automated excl j.title j.advertiser = some false
        ∧ ∃ out0, out = j :: out0
            ∧ reconcile excl desired rest (insert j.id seen) = some (out0, s1)) := by
  unfold reconcile at h
  by_cases hid : j.id = ""
  · rw [if_pos hid] at h
    exact Or.inl ⟨hid, h⟩
  · rw [if_neg hid] at h
    by_cases hmem : j.id ∈ seen
    · rw [if_pos hmem] at h
      exact Or.inr (Or.inl ⟨hid, hmem, h⟩)
    · rw [if_neg hmem] at h
      cases hloc : matches_location j.location desired with
      | none => rw [hloc] at h; exact absurd h (by simp)
      | some b =>
        rw [hloc] at h
        cases b with
        | false => exact Or.inr (Or.inr (Or.inl ⟨hid, hmem, rfl, h⟩))
        | true =>
          cases hauto : looks_automated excl j.title j.advertiser with
          | none => rw [hauto] at h; exact absurd h (by simp)
          | some c =>
            rw [hauto] at h
            cases c with
            | true => exact Or.inr (Or.inr (Or.inr (Or.inl ⟨hid, hmem, rfl, rfl, h⟩)))
            | false =>
              cases hrec : reconcile excl desired rest (insert j.id seen) with
              | none => rw [hrec] at h; exact absurd h (by simp)
              | some p =>
                rw [hrec] at h
                obtain ⟨out0, s0⟩ := p
                have h2 : (j :: out0, s0) = (out, s1) := Option.some.inj h
                injection h2 with hout hs
                subst hs
                exact Or.inr (Or.inr (Or.inr (Or.inr
                  ⟨hid, hmem, rfl, rfl, out0, hout.symm, rfl⟩)))

lemma reconcile_second_run (excl : List String) (desired : String) :
    ∀ (jobs : List JobRecord) (seen : Finset String) (out : List JobRecord) (s1 : Finset String),
      reconcile excl desired jobs seen = some (out, s1) →
      reconcile excl desired jobs s1 = some ([], s1) := by
  intro jobs
  induction jobs with
  | nil =>
    intro seen out s1 h
    simp only [reconcile, Option.some.injEq, Prod.mk.injEq] at h
    rw [← h.2]
    rfl
  | cons j rest ih =>
    intro seen out s1 h
    rcases reconcile_cons_inv excl desired j rest seen out s1 h with
      ⟨hid, hr⟩ | ⟨hid, hmem, hr⟩ | ⟨hid, hmem, hloc, hr⟩ | ⟨hid, hmem, hloc, hauto, hr⟩ |
      ⟨hid, hmem, hloc, hauto, out0, hout, hrec⟩
    · have hnext := ih seen out s1 hr
      unfold reconcile
      rw [if_pos hid]
      exact hnext
    · have hnext := ih seen out s1 hr
      have hsub := reconcile_mono excl desired rest seen out s1 hr
      unfold reconcile
      rw [if_neg hid, if_pos (hsub hmem)]
      exact hnext
    · have hnext := ih seen out s1 hr
      unfold reconcile
      rw [if_neg hid]
      by_cases hm1 : j.id ∈ s1
      · rw [if_pos hm1]
        exact hnext
      · rw [if_neg hm1, hloc]
        exact hnext
    · have hnext := ih seen out s1 hr
      unfold reconcile
      rw [if_neg hid]
      by_cases hm1 : j.id ∈ s1
      · rw [if_pos hm1]
        exact hnext
      · rw [if_neg hm1, hloc, hauto]
        exact hnext
    · have hnext := ih (insert j.id seen) out0 s1 hrec
      have hmem1 : j.id ∈ s1 :=
        reconcile_mono excl desired rest (insert j.id seen) out0 s1 hrec
          (Finset.mem_insert_self j.id seen)
      unfold reconcile
      rw [if_neg hid, if_pos hmem1]
      exact hnext

lemma reconcile_out_ids (excl : List String) (desired : String) :
    ∀ (jobs : List JobRecord) (seen : Finset String) (out : List JobRecord) (s1 : Finset String),
      reconcile excl desired jobs seen = some (out, s1) →
      (∀ j ∈ out, j.id ≠ "") ∧ ("" ∈ s1 → "" ∈ seen) := by
  intro jobs
  induction jobs with
  | nil =>
    intro seen out s1 h
    simp only [reconcile, Option.some.injEq, Prod.mk.injEq] at h
    refine ⟨?_, ?_⟩
    · rw [← h.1]
      intro j hj
      simp at hj
    · rw [← h.2]
      exact id
  | cons j rest ih =>
    intro seen out s1 h
    rcases reconcile_cons_inv excl desired j rest seen out s1 h with
      ⟨hid, hr⟩ | ⟨hid, hmem, hr⟩ | ⟨hid, hmem, hloc, hr⟩ | ⟨hid, hmem, hloc, hauto, hr⟩ |
      ⟨hid, hmem, hloc, hauto, out0, hout, hrec⟩
    · exact ih seen out s1 hr
    · exact ih seen out s1 hr
    · exact ih seen out s1 hr
    · exact ih seen out s1 hr
    · obtain ⟨hids, hempty⟩ := ih (insert j.id seen) out0 s1 hrec
      subst hout
      refine ⟨?_, ?_⟩
      · intro x hx
        rcases List.mem_cons.mp hx with rfl | hx0
        · exact hid
        · exact hids x hx0
      · intro hin
        rcases Finset.mem_insert.mp (hempty hin) with heq2 | hseen
        · exact absurd heq2.symm hid
        · exact hseen

lemma updAssoc_preserve (P : JobRecord → Prop) :
    ∀ (m : List (String × JobRecord)) (k : String) (v : JobRecord),
      (∀ kv ∈ m, P kv.2) → P v → ∀ kv ∈ updAssoc m k v, P kv.2 := by
  intro m
  induction m with
  | nil =>
    intro k v _ hv kv hkv
    simp only [updAssoc, List.mem_singleton] at hkv
    rw [hkv]
    exact hv
  | cons kv0 rest ih =>
    intro k v hm hv kv hkv
    unfold updAssoc at hkv
    split at hkv
    · rcases List.mem_cons.mp hkv with rfl | hkv0
      · exact hv
      · exact hm kv (List.mem_cons_of_mem _ hkv0)
    · rcases List.mem_cons.mp hkv with rfl | hkv0
      · exact hm kv (by simp)
      · exact ih k v (fun x hx => hm x (List.mem_cons_of_mem _ hx)) hv kv hkv0

lemma dedup_fold_ids_ne :
    ∀ (js : List JobRecord) (m : List (String × JobRecord)),
      (∀ kv ∈ m, kv.2.id ≠ "") →
      ∀ kv ∈ js.foldl (fun m j => if j.id = "" then m else updAssoc m j.id j) m, kv.2.id ≠ "" := by
  intro js
  induction js with
  | nil => intro m hm kv hkv; exact hm kv hkv
  | cons j rest ih =>
    intro m hm kv hkv
    rw [List.foldl_cons] at hkv
    by_cases hj : j.id = ""
    · rw [if_pos hj] at hkv
      exact ih m hm kv hkv
    · rw [if_neg hj] at hkv
      exact ih (updAssoc m j.id j) (updAssoc_preserve (fun r => r.id ≠ "") m j.id j hm hj) kv hkv

/-- C1: a record whose id is the empty string is invisible to
reconciliation, wherever it came from: the dedup of line 438 keeps no such
record, the notification loop emits no such record, and the seen set gains
no empty id (an empty id in the final set was there before the run).  The
quantification is over arbitrary record batches, covering the output of
both extraction strategies. -/
theorem empty_id_discarded (excl : List String) (desired : String)
    (jobs : List JobRecord) (seen : Finset String) (out : List JobRecord) (s1 : Finset String)
    (h : reconcile excl desired jobs seen = some (out, s1)) :
    (dedupById jobs).all (fun j => j.id != "") = true
    ∧ out.all (fun j => j.id != "") = true
    ∧ ("" ∈ s1 → "" ∈ seen) := by
  obtain ⟨hout, hseen⟩ := reconcile_out_ids excl desired jobs seen out s1 h
  refine ⟨?_, ?_, hseen⟩
  · rw [List.all_eq_true]
    intro j hj
    unfold dedupById at hj
    rcases List.mem_map.mp hj with ⟨kv, hkv, rfl⟩
    have := dedup_fold_ids_ne jobs [] (by intro kv hkv; simp at hkv) kv hkv
    simpa using this
  · rw [List.all_eq_true]
    intro j hj
    have := hout j hj
    simpa using this

def recEmpty : JobRecord :=
  { id := "", title := .str "ghost", advertiser := .none, location := .none,
    salary := .none, url := "u0", listingDate := .none }

def recOne : JobRecord :=
  { id := "1", title := .str "Manual QA", advertiser := .none, location := .str "Auckland",
    salary := .none, url := "u1", listingDate := .none }

/-- C1 witness: a batch holding an empty-id record and a normal record,
against an empty seen set and empty filters. -/
theorem empty_id_discarded_witness :
    (dedupById [recEmpty, recOne]).all (fun j => j.id != "") = true
    ∧ [recOne].all (fun j => j.id != "") = true
    ∧ ("" ∈ insert "1" (∅ : Finset String) → "" ∈ (∅ : Finset String)) :=
  empty_id_discarded [] "" [recEmpty, recOne] ∅ [recOne] (insert "1" ∅) rfl

/-- C7: reconciliation is idempotent over the seen set: a second run over
the same candidates, starting from the seen set the first run produced,
notifies nothing and leaves the seen set unchanged. -/
theorem reconcile_idempotent (excl : List String) (desired : String)
    (jobs : List JobRecord) (seen : Finset String) (out1 : List JobRecord) (s1 : Finset String)
    (h : reconcile excl desired jobs seen = some (out1, s1)) :
    reconcile excl desired jobs s1 = some ([], s1) :=
  reconcile_second_run excl desired jobs seen out1 s1 h

/-- C7 witness: the run notifying record 1 from an empty seen set, replayed
on its resulting seen set, notifies nothing. -/
theorem reconcile_idempotent_witness :
    reconcile [] "" [recEmpty, recOne] (insert "1" ∅) = some ([], insert "1" ∅) :=
  reconcile_idempotent [] "" [recEmpty, recOne] ∅ [recOne] (insert "1" ∅) rfl

/-- C9: the state file is written at most once per run and only when the
run notified at least one new job; a run that notifies nothing performs no
write and leaves the persisted state exactly as it was; and when a write
happens, its content is save_state of an enumeration of the final seen set,
independent of the previous persisted content (a full overwrite, not an
append). -/
theorem save_frame (excl : List String) (desired : String)
    (jobs : List JobRecord) (seen : Finset String) (out1 : List JobRecord) (s1 : Finset String)
    (persisted e : List String)
    (h : reconcile excl desired jobs seen = some (out1, s1)) (he : enumerates e s1) :
    (runFinish persisted out1.length e).2 ≤ 1
    ∧ (out1 = [] → runFinish persisted out1.length e = (persisted, 0))
    ∧ (out1 ≠ [] → (runFinish persisted out1.length e).1 = save_state e) := by
  refine ⟨?_, ?_, ?_⟩
  · unfold runFinish
    split <;> simp
  · intro h0
    subst h0
    rfl
  · intro hne
    have hlen : out1.length ≠ 0 := by
      intro h0
      exact hne (List.length_eq_zero.mp h0)
    unfold runFinish
    rw [if_pos hlen]

/-- C9 witness: the run notifying record 1, with enumeration of its final
seen set and an arbitrary prior persisted state. -/
theorem save_frame_witness :
    (runFinish ["old"] [recOne].length ["1"]).2 ≤ 1
    ∧ ([recOne] = [] → runFinish ["old"] [recOne].length ["1"] = (["old"], 0))
    ∧ ([recOne] ≠ [] → (runFinish ["old"] [recOne].length ["1"]).1 = save_state ["1"]) :=
  save_frame [] "" [recEmpty, recOne] ∅ [recOne] (insert "1" ∅) ["old"] ["1"] rfl
    (by refine ⟨by simp, ?_, ?_⟩ <;> intro x hx <;> simp at hx <;> simp [hx])

def insertedIds : List String :=
  (List.range 2500).map (fun n => String.mk (List.replicate (n + 1) 'x'))

lemma insertedIds_inj (a b : Nat)
    (hab : String.mk (List.replicate (a + 1) 'x') = String.mk (List.replicate (b + 1) 'x')) :
    a = b := by
  have h2 : List.replicate (a + 1) 'x' = List.replicate (b + 1) 'x' := congrArg String.data hab
  have h3 := congrArg List.length h2
  simp only [List.length_replicate] at h3
  omega

lemma insertedIds_nodup : insertedIds.Nodup :=
  (List.nodup_map_iff_inj_on (List.nodup_range 2500)).mpr
    (fun x _ y _ h => insertedIds_inj x y h)

/-- C2: the persisted seen set is not the 2000 most recently inserted ids
in insertion order.  The in-memory collection is an unordered Python set,
so list(seen_ids) is an arbitrary enumeration of its elements; for the 2500
distinct ids inserted in order there is a legitimate enumeration (the
reversed one) on which save_state writes 2000 ids that are not the last
2000 inserted: the cap holds, the recency and order guarantee does not. -/
theorem seen_cap_loses_recency :
    ∃ e : List String, enumerates e insertedIds.toFinset
      ∧ (save_state e).length = 2000
      ∧ save_state e ≠ insertedIds.drop 500 := by
  refine ⟨insertedIds.reverse, ⟨List.nodup_reverse.mpr insertedIds_nodup, ?_, ?_⟩, ?_, ?_⟩
  · intro x hx
    rw [List.mem_toFinset]
    exact List.mem_reverse.mp hx
  · intro x hx
    rw [List.mem_reverse]
    exact List.mem_toFinset.mp hx
  · have hlen : insertedIds.reverse.length = 2500 := by
      simp [insertedIds]
    unfold save_state
    rw [List.length_drop, hlen]
  · intro hcontra
    have h0 := congrArg (fun l => l[0]?) hcontra
    have hlen : insertedIds.length = 2500 := by simp [insertedIds]
    have hlenr : insertedIds.reverse.length = 2500 := by simp [hlen]
    have hL : (save_state insertedIds.reverse)[0]?
        = some (String.mk (List.replicate 2000 'x')) := by
      unfold save_state
      rw [hlenr]
      rw [List.getElem?_drop]
      rw [List.getElem?_reverse (by rw [hlen]; norm_num)]
      rw [hlen]
      show insertedIds[1999]? = _
      unfold insertedIds
      rw [List.getElem?_map, List.getElem?_range (by norm_num)]
      rfl
    have hR : (insertedIds.drop 500)[0]? = some (String.mk (List.replicate 501 'x')) := by
      rw [List.getElem?_drop]
      unfold insertedIds
      rw [List.getElem?_map, List.getElem?_range (by norm_num)]
      rfl
    simp only [hL, hR, Option.some.injEq] at h0
    have h19 : (1999 : Nat) = 500 := insertedIds_inj 1999 500 h0
    omega

end SeekBot
